import Mathlib

/-!
# Verification of the UBC mesh/model readers (`PVGPpy/read/ubc.py`)

A shallow embedding of the pure computational core of `ubc.py`:

* `placeModelOnMesh` — size validation and the reshape / swapaxes(0,1) /
  swapaxes(0,2) / flatten reordering of a flat model array;
* the run-length spacing expansion loop and axis validation of `ubcMesh3D`,
  and its cumulative-sum coordinate construction;
* the segment-subdivision coordinate construction of `ubcMesh2D`;
* the shape validation and column-major flatten of `ubcModel2D`;
* the extent readers `ubcExtent2D` / `ubcExtent3D`;
* the core-dimension validation of `ubcOcTree`.

Python floats are modelled as rationals (`ℚ`); NumPy integer headers as `ℤ`
or `ℕ` where they denote counts.  A Python exception is modelled as the
`Except.error` branch carrying a `UbcErr` value; distinct exception messages
map to distinct constructors.
-/

set_option maxHeartbeats 1000000

/-- The distinct failure modes (Python exception messages) of `ubc.py`.
Each constructor stands for one `raise` site or library failure:

* `sizeSurplus`: "This model file has more data than the given mesh has
  cells to hold."  (`placeModelOnMesh`)
* `sizeDeficit`: "This model file does not have enough data to fill the
  given mesh cells."  (`placeModelOnMesh`, second raise)
* `dimSpacings i`: "More spacings specifed than extent defined allows for
  dimension %d" with `%d = i`  (`ubcMesh3D`)
* `valueError`: a NumPy conversion/parsing failure (e.g. `np.array(_, float)`
  on a token that is not a number, or `np.genfromtxt` on ragged rows)
* `badModelFormat`: "Mode file improperly formatted."  (`ubcModel2D`)
* `unsupportedGeometry`: "OcTree meshes must have the same number of cells
  in all directions."  (`ubcOcTree`) -/
inductive UbcErr : Type where
  | sizeSurplus : UbcErr
  | sizeDeficit : UbcErr
  | dimSpacings (i : Nat) : UbcErr
  | valueError : UbcErr
  | badModelFormat : UbcErr
  | unsupportedGeometry : UbcErr
deriving DecidableEq, Repr

/-! ## NumPy 3-D arrays and `placeModelOnMesh`

`np.reshape(model, (n1,n2,n3))` interprets a flat array in C (row-major)
order; `np.swapaxes` exchanges two axes; `.flatten()` re-linearizes in C
order.  We model a 3-D array by its axis lengths and a total indexing
function (out-of-range reads never occur in the proved statements; `getD`
supplies a default as NumPy would never be asked to). -/

/-- A NumPy 3-D array: axis lengths `d1 × d2 × d3` and the entry function. -/
structure Arr3 (α : Type) where
  d1 : Nat
  d2 : Nat
  d3 : Nat
  data : Nat → Nat → Nat → α

/-- NumPy `np.reshape(model, (n1,n2,n3))` in C order: entry `(i,j,k)` is flat
element `i*(n2*n3) + j*n3 + k`. -/
def np_reshape3 {α : Type} (n1 n2 n3 : Nat) (l : List α) (d : α) : Arr3 α :=
  ⟨n1, n2, n3, fun i j k => l.getD (i * (n2 * n3) + j * n3 + k) d⟩

/-- NumPy `np.swapaxes(A, 0, 1)`. -/
def np_swapaxes01 {α : Type} (A : Arr3 α) : Arr3 α :=
  ⟨A.d2, A.d1, A.d3, fun i j k => A.data j i k⟩

/-- NumPy `np.swapaxes(A, 0, 2)`. -/
def np_swapaxes02 {α : Type} (A : Arr3 α) : Arr3 α :=
  ⟨A.d3, A.d2, A.d1, fun i j k => A.data k j i⟩

/-- NumPy `A.flatten()` in C order: output element `m` is
`A[m / (d2*d3), (m / d3) % d2, m % d3]`. -/
def np_flatten {α : Type} (A : Arr3 α) : List α :=
  (List.range (A.d1 * A.d2 * A.d3)).map
    (fun m => A.data (m / (A.d2 * A.d3)) ((m / A.d3) % A.d2) (m % A.d3))

/-- Source `placeModelOnMesh` (ubc.py lines 88–101), with the mesh represented by
its extent-derived cell counts `(n1, n2, n3)` and the model by a flat list.
Mirrors the source: the two size checks, then
`reshape (n1,n2,n3)`, `swapaxes 0 1`, `swapaxes 0 2`, `flatten`. -/
def placeModelOnMesh {α : Type} (n1 n2 n3 : Nat) (model : List α) (d : α) :
    Except UbcErr (List α) :=
  if n1 * n2 * n3 < model.length then
    .error .sizeSurplus
  else if n1 * n2 * n3 > model.length then
    .error .sizeDeficit
  else
    let A := np_reshape3 n1 n2 n3 model d
    let A := np_swapaxes01 A
    let A := np_swapaxes02 A
    .ok (np_flatten A)

/-- The flat index permutation realized by the reshape/swap/swap/flatten
pipeline on dims `(a, b, c)`: output element `m` comes from input element
`fIdx a b c m`. -/
def fIdx (a b c m : Nat) : Nat :=
  ((m / b) % a) * (b * c) + (m % b) * c + m / (a * b)

/-- The whole pipeline of `placeModelOnMesh` as a single map over flat
output indices. -/
def Tflat {α : Type} (a b c : Nat) (l : List α) (d : α) : List α :=
  np_flatten (np_swapaxes02 (np_swapaxes01 (np_reshape3 a b c l d)))

theorem Tflat_eq_map {α : Type} (a b c : Nat) (l : List α) (d : α) :
    Tflat a b c l d =
      (List.range (c * a * b)).map (fun m => l.getD (fIdx a b c m) d) := rfl

/-- The transform exactly as the specification words it: reshape the flat
model to `(n1,n2,n3)` in file (C) order, swap axes 0 and 1, then swap axes
0 and 2, then flatten — "yielding grid-order indexing", i.e. output element
`m = k*(n1*n2) + i*n2 + j` is input element `i*(n2*n3) + j*n3 + k`. -/
def gridOrderSpec {α : Type} (n1 n2 n3 : Nat) (l : List α) (d : α) : List α :=
  (List.range (n1 * n2 * n3)).map
    (fun m => l.getD (((m / n2) % n1) * (n2 * n3) + (m % n2) * n3 + m / (n1 * n2)) d)

/-! ## Mixed-radix index arithmetic -/

theorem mixed_lt {a b c : Nat} {i j k : Nat} (hi : i < a) (hj : j < b) (hk : k < c) :
    i * (b * c) + j * c + k < a * (b * c) := by
  have h1 : (j + 1) * c ≤ b * c := Nat.mul_le_mul_right c hj
  have h2 : (i + 1) * (b * c) ≤ a * (b * c) := Nat.mul_le_mul_right (b * c) hi
  have h3 : (j + 1) * c = j * c + c := by ring
  have h4 : (i + 1) * (b * c) = i * (b * c) + b * c := by ring
  omega

theorem two_mixed_lt {a b : Nat} {i j : Nat} (hi : i < a) (hj : j < b) :
    i * b + j < a * b := by
  have h1 : (i + 1) * b ≤ a * b := Nat.mul_le_mul_right b hi
  have h2 : (i + 1) * b = i * b + b := by ring
  omega

/-- Recover the leading digit of `i * (b*c) + j * c + k`. -/
theorem mixed_div_bc {b c : Nat} (i : Nat) {j k : Nat} (hj : j < b) (hk : k < c) :
    (i * (b * c) + j * c + k) / (b * c) = i := by
  have hbc : 0 < b * c := by
    have := two_mixed_lt hj hk
    omega
  have he : i * (b * c) + j * c + k = b * c * i + (j * c + k) := by ring
  rw [he, Nat.mul_add_div hbc, Nat.div_eq_of_lt (by have := two_mixed_lt hj hk; omega)]
  omega

/-- Recover the middle digit of `i * (b*c) + j * c + k`. -/
theorem mixed_div_mod_c {b c : Nat} (i : Nat) {j k : Nat} (hj : j < b) (hk : k < c) :
    ((i * (b * c) + j * c + k) / c) % b = j := by
  have hc : 0 < c := by omega
  have he : i * (b * c) + j * c + k = c * (i * b + j) + k := by ring
  rw [he, Nat.mul_add_div hc, Nat.div_eq_of_lt hk]
  have he2 : i * b + j + 0 = b * i + j := by ring
  rw [he2, Nat.mul_add_mod, Nat.mod_eq_of_lt hj]

/-- Recover the trailing digit of `i * (b*c) + j * c + k`. -/
theorem mixed_mod_c {c : Nat} (b i j : Nat) {k : Nat} (hk : k < c) :
    (i * (b * c) + j * c + k) % c = k := by
  have he : i * (b * c) + j * c + k = c * (i * b + j) + k := by ring
  rw [he, Nat.mul_add_mod, Nat.mod_eq_of_lt hk]

/-- Evaluation of the pipeline index map at a mixed-radix decomposition:
output position `(k, i, j)` of the `(c, a, b)`-shaped result reads input
position `(i, j, k)` of the `(a, b, c)`-shaped model. -/
theorem fIdx_eval {a b c : Nat} (k i j : Nat) (hk : k < c) (hi : i < a) (hj : j < b) :
    fIdx a b c (k * (a * b) + i * b + j) = i * (b * c) + j * c + k := by
  have hb : 0 < b := by omega
  have hab : 0 < a * b := by
    have := two_mixed_lt hi hj
    omega
  have hform : k * (a * b) + i * b + j = b * (k * a + i) + j := by ring
  have h1 : (k * (a * b) + i * b + j) / b = k * a + i := by
    rw [hform, Nat.mul_add_div hb, Nat.div_eq_of_lt hj]
    omega
  have h2 : (k * (a * b) + i * b + j) % b = j := by
    rw [hform, Nat.mul_add_mod, Nat.mod_eq_of_lt hj]
  have h3 : (k * (a * b) + i * b + j) / (a * b) = k := by
    have hform2 : k * (a * b) + i * b + j = a * b * k + (i * b + j) := by ring
    rw [hform2, Nat.mul_add_div hab, Nat.div_eq_of_lt (two_mixed_lt hi hj)]
    omega
  have h4 : (k * a + i) % a = i := by
    have : k * a + i = a * k + i := by ring
    rw [this, Nat.mul_add_mod, Nat.mod_eq_of_lt hi]
  unfold fIdx
  rw [h1, h2, h3, h4]

/-- Every flat index below `a*b*c` has a mixed-radix decomposition in the
`(c, a, b)` shape used by the pipeline output. -/
theorem decomp3 {a b c m : Nat} (h : m < a * b * c) :
    ∃ k i j, k < c ∧ i < a ∧ j < b ∧ m = k * (a * b) + i * b + j := by
  have ha : 0 < a := by
    rcases Nat.eq_zero_or_pos a with h0 | h0
    · subst h0; simp at h
    · exact h0
  have hb : 0 < b := by
    rcases Nat.eq_zero_or_pos b with h0 | h0
    · subst h0; simp at h
    · exact h0
  have hab : 0 < a * b := Nat.mul_pos ha hb
  refine ⟨m / (a * b), (m % (a * b)) / b, (m % (a * b)) % b, ?_, ?_, ?_, ?_⟩
  · rw [Nat.div_lt_iff_lt_mul hab]
    have : a * b * c = c * (a * b) := by ring
    omega
  · rw [Nat.div_lt_iff_lt_mul hb]
    have h1 := Nat.mod_lt m hab
    have : a * b = a * b := rfl
    omega
  · exact Nat.mod_lt _ hb
  · have e1 := Nat.div_add_mod m (a * b)
    have e2 := Nat.div_add_mod (m % (a * b)) b
    calc m = a * b * (m / (a * b)) + (b * (m % (a * b) / b) + m % (a * b) % b) := by
            rw [e2, e1]
    _ = m / (a * b) * (a * b) + m % (a * b) / b * b + m % (a * b) % b := by ring

/-! ## Claim C1: the pipeline realizes the grid-order transform of the spec -/

/-- Claim C1. For every cell-count triple `(n1, n2, n3)` and model array of length
`n1*n2*n3`, `placeModelOnMesh` succeeds and attaches exactly the array
obtained by reshaping the flat model to `(n1, n2, n3)` in file (C) order,
swapping axes 0 and 1, swapping axes 0 and 2, and flattening — i.e. the
grid-order permutation `out[k*(n1*n2) + i*n2 + j] = model[i*(n2*n3) + j*n3 + k]`
recorded in `gridOrderSpec`.
-/
theorem placeModelOnMesh_grid_order (n1 n2 n3 : Nat) (model : List ℚ)
    (h : model.length = n1 * n2 * n3) :
    placeModelOnMesh n1 n2 n3 model 0 = .ok (gridOrderSpec n1 n2 n3 model 0) := by
  unfold placeModelOnMesh
  rw [if_neg (by omega), if_neg (by omega)]
  show Except.ok (Tflat n1 n2 n3 model 0) = _
  rw [Tflat_eq_map, show n3 * n1 * n2 = n1 * n2 * n3 from by ring]
  rfl

/-- Witness for C1 at `(n1,n2,n3) = (1,2,3)`: the six model values are
redistributed by the grid-order permutation. -/
theorem placeModelOnMesh_grid_order_witness :
    placeModelOnMesh 1 2 3 ([10, 11, 12, 13, 14, 15] : List ℚ) 0 =
      .ok [10, 13, 11, 14, 12, 15] := by
  have h := placeModelOnMesh_grid_order 1 2 3 ([10, 11, 12, 13, 14, 15] : List ℚ) (by decide)
  rw [h]
  congr 1

/-! ## Claim C4: size validation of `placeModelOnMesh` -/

/-- Claim C4. `placeModelOnMesh` raises an error iff the model length differs from
`n1*n2*n3`; the surplus case (more data than cells) and the deficit case
(not enough data) raise distinguishable errors; on an exact match it returns
a cell array of exactly the model length (no truncation or padding).
-/
theorem placeModelOnMesh_size_check (n1 n2 n3 : Nat) (model : List ℚ) :
    ((∃ e, placeModelOnMesh n1 n2 n3 model 0 = .error e) ↔
        model.length ≠ n1 * n2 * n3) ∧
    (n1 * n2 * n3 < model.length →
        placeModelOnMesh n1 n2 n3 model 0 = .error .sizeSurplus) ∧
    (model.length < n1 * n2 * n3 →
        placeModelOnMesh n1 n2 n3 model 0 = .error .sizeDeficit) ∧
    UbcErr.sizeSurplus ≠ UbcErr.sizeDeficit ∧
    (model.length = n1 * n2 * n3 →
        ∃ out, placeModelOnMesh n1 n2 n3 model 0 = .ok out ∧
          out.length = model.length) := by
  refine ⟨?_, ?_, ?_, by decide, ?_⟩
  · constructor
    · rintro ⟨e, he⟩ heq
      unfold placeModelOnMesh at he
      rw [if_neg (by omega), if_neg (by omega)] at he
      exact absurd he (by simp)
    · intro hne
      unfold placeModelOnMesh
      rcases Nat.lt_or_ge (n1 * n2 * n3) model.length with hlt | hge
      · exact ⟨.sizeSurplus, by rw [if_pos hlt]⟩
      · have hgt : n1 * n2 * n3 > model.length := by omega
        exact ⟨.sizeDeficit, by rw [if_neg (by omega), if_pos hgt]⟩
  · intro hlt
    unfold placeModelOnMesh
    rw [if_pos hlt]
  · intro hgt
    unfold placeModelOnMesh
    rw [if_neg (by omega), if_pos (by omega)]
  · intro heq
    refine ⟨Tflat n1 n2 n3 model 0, ?_, ?_⟩
    · unfold placeModelOnMesh
      rw [if_neg (by omega), if_neg (by omega)]
      rfl
    · rw [Tflat_eq_map, List.length_map, List.length_range, heq]
      ring

/-- Witness for C4: surplus and deficit at concrete inputs. -/
theorem placeModelOnMesh_size_check_witness :
    placeModelOnMesh 1 1 2 ([3, 7, 9] : List ℚ) 0 = .error .sizeSurplus ∧
    placeModelOnMesh 1 1 2 ([3] : List ℚ) 0 = .error .sizeDeficit :=
  ⟨(placeModelOnMesh_size_check 1 1 2 [3, 7, 9]).2.1 (by decide),
   (placeModelOnMesh_size_check 1 1 2 [3]).2.2.1 (by decide)⟩

/-! ## Claim C2: the reordering is a bijection; its inverse -/

theorem getD_range_map {α : Type} (f : Nat → α) (n q : Nat) (d : α) (h : q < n) :
    ((List.range n).map f).getD q d = f q := by
  rw [List.getD_eq_getElem _ _ (by simpa using h)]
  simp

theorem eq_of_getD {α : Type} (d : α) (l₁ l₂ : List α) (hlen : l₁.length = l₂.length)
    (h : ∀ m, m < l₁.length → l₁.getD m d = l₂.getD m d) : l₁ = l₂ := by
  apply List.ext_getElem hlen
  intro i h1 h2
  have hi := h i h1
  rwa [List.getD_eq_getElem _ _ h1, List.getD_eq_getElem _ _ h2] at hi

/-- The flat index map of the pipeline is a bijection of the index set
`{0, …, a*b*c - 1}` onto itself. -/
theorem fIdx_bijOn (a b c : Nat) :
    Set.BijOn (fIdx a b c) (Set.Iio (a * b * c)) (Set.Iio (a * b * c)) := by
  refine ⟨?_, ?_, ?_⟩
  · intro m hm
    obtain ⟨k, i, j, hk, hi, hj, hm'⟩ := decomp3 (Set.mem_Iio.mp hm)
    have := fIdx_eval k i j hk hi hj
    rw [Set.mem_Iio, hm', this]
    have := mixed_lt hi hj hk
    have harr : a * (b * c) = a * b * c := by ring
    omega
  · intro m1 hm1 m2 hm2 heq
    obtain ⟨k1, i1, j1, hk1, hi1, hj1, e1⟩ := decomp3 (Set.mem_Iio.mp hm1)
    obtain ⟨k2, i2, j2, hk2, hi2, hj2, e2⟩ := decomp3 (Set.mem_Iio.mp hm2)
    rw [e1, e2, fIdx_eval k1 i1 j1 hk1 hi1 hj1, fIdx_eval k2 i2 j2 hk2 hi2 hj2] at heq
    have d1 := mixed_div_bc i1 hj1 hk1
    have d2 := mixed_div_bc i2 hj2 hk2
    have m1' := mixed_div_mod_c i1 hj1 hk1
    have m2' := mixed_div_mod_c i2 hj2 hk2
    have r1 := mixed_mod_c b i1 j1 hk1
    have r2 := mixed_mod_c b i2 j2 hk2
    rw [heq] at d1 m1' r1
    rw [e1, e2]
    rw [d1] at d2
    rw [m1'] at m2'
    rw [r1] at r2
    rw [d2, m2', r2]
  · intro p hp
    have hp0 := Set.mem_Iio.mp hp
    have hp' : p < b * c * a := by
      have harr : b * c * a = a * b * c := by ring
      omega
    obtain ⟨x, y, z, hx, hy, hz, hp2⟩ := decomp3 hp'
    refine ⟨z * (a * b) + x * b + y, ?_, ?_⟩
    · have := mixed_lt hz hx hy
      have harr : c * (a * b) = a * b * c := by ring
      rw [Set.mem_Iio]
      omega
    · rw [fIdx_eval z x y hz hx hy, hp2]

/-- Applying the pipeline three times, each time with the reshape dims
adjusted to the previous output shape `(a,b,c) → (c,a,b) → (b,c,a)`,
returns the original flat order. -/
theorem Tflat_triple {α : Type} (a b c : Nat) (l : List α) (d : α)
    (h : l.length = a * b * c) :
    Tflat b c a (Tflat c a b (Tflat a b c l d) d) d = l := by
  have hlen3 : (Tflat b c a (Tflat c a b (Tflat a b c l d) d) d).length = a * b * c := by
    rw [Tflat_eq_map, List.length_map, List.length_range]
  apply eq_of_getD d _ _ (by rw [hlen3, h])
  intro m hm
  rw [hlen3] at hm
  have hm' : m < b * c * a := by
    have : b * c * a = a * b * c := by ring
    omega
  obtain ⟨x, y, z, hx, hy, hz, hmeq⟩ := decomp3 hm'
  -- `hmeq : m = x * (b * c) + y * c + z` with `x < a`, `y < b`, `z < c`.
  have hq1 : fIdx b c a m = y * (c * a) + z * a + x := by
    rw [hmeq]; exact fIdx_eval x y z hx hy hz
  have hq1lt : fIdx b c a m < b * c * a := by
    rw [hq1]
    have := mixed_lt hy hz hx
    have : b * (c * a) = b * c * a := by ring
    omega
  have hq2 : fIdx c a b (fIdx b c a m) = z * (a * b) + x * b + y := by
    rw [hq1]; exact fIdx_eval y z x hy hz hx
  have hq2lt : fIdx c a b (fIdx b c a m) < c * a * b := by
    rw [hq2]
    have := mixed_lt hz hx hy
    have : c * (a * b) = c * a * b := by ring
    omega
  have hq3 : fIdx a b c (fIdx c a b (fIdx b c a m)) = m := by
    rw [hq2, fIdx_eval z x y hz hx hy, hmeq]
  rw [Tflat_eq_map b c a, getD_range_map _ _ _ _ hm]
  rw [Tflat_eq_map c a b, getD_range_map _ _ _ _ hq1lt]
  rw [Tflat_eq_map a b c, getD_range_map _ _ _ _ hq2lt]
  rw [hq3]

/-- Re-applying the same reshape/swapaxes(0,1)/swapaxes(0,2)/flatten
transform, with the reshape dims correctly adjusted to `(c, 1, a*b)`,
inverts the transform: the pipeline on `(a,b,c)` is the 2-D transpose of an
`(a*b) × c` matrix, and the pipeline on `(c, 1, a*b)` is the transpose back. -/
theorem Tflat_double_inverse {α : Type} (a b c : Nat) (l : List α) (d : α)
    (h : l.length = a * b * c) :
    Tflat c 1 (a * b) (Tflat a b c l d) d = l := by
  have hlen : (Tflat c 1 (a * b) (Tflat a b c l d) d).length = a * b * c := by
    rw [Tflat_eq_map, List.length_map, List.length_range]
    ring
  apply eq_of_getD d _ _ (by rw [hlen, h])
  intro m hm
  rw [hlen] at hm
  have hm2 : m < b * c * a := by
    have : b * c * a = a * b * c := by ring
    omega
  obtain ⟨x, y, z, hx, hy, hz, hmeq⟩ := decomp3 hm2
  -- `hmeq : m = x * (b * c) + y * c + z` with `x < a`, `y < b`, `z < c`.
  have hq : fIdx c 1 (a * b) m = z * (a * b) + x * b + y := by
    have harg : m = (x * b + y) * (c * 1) + z * 1 + 0 := by rw [hmeq]; ring
    rw [harg, fIdx_eval (x * b + y) z 0 (two_mixed_lt hx hy) hz (by omega)]
    ring
  have hqlt : fIdx c 1 (a * b) m < c * a * b := by
    rw [hq]
    have h1 := mixed_lt hz hx hy
    have h2 : c * (a * b) = c * a * b := by ring
    omega
  have hq2 : fIdx a b c (fIdx c 1 (a * b) m) = m := by
    rw [hq, fIdx_eval z x y hz hx hy, hmeq]
  rw [Tflat_eq_map c 1 (a * b),
    getD_range_map _ _ _ _ (by rw [show a * b * c * 1 = a * b * c from by ring]; exact hm)]
  rw [Tflat_eq_map a b c, getD_range_map _ _ _ _ hqlt, hq2]

/-- Claim C2. For all `(n1,n2,n3)` and every model array of matching length
`n1*n2*n3`, the reordering `placeModelOnMesh` performs is the index
permutation `fIdx n1 n2 n3`, which is a bijection of the index set
`{0, …, n1*n2*n3 - 1}` onto itself (every index is touched exactly once);
and applying the same double-axis-swap transform a second time, with the
reshape dims correctly adjusted (to `(n3, 1, n1*n2)`), returns the original
order.
-/
theorem placeModelOnMesh_reorder_bijection (n1 n2 n3 : Nat) (model : List ℚ)
    (h : model.length = n1 * n2 * n3) :
    placeModelOnMesh n1 n2 n3 model 0 = .ok (Tflat n1 n2 n3 model 0) ∧
    Set.BijOn (fIdx n1 n2 n3) (Set.Iio (n1 * n2 * n3)) (Set.Iio (n1 * n2 * n3)) ∧
    Tflat n3 1 (n1 * n2) (Tflat n1 n2 n3 model 0) 0 = model := by
  refine ⟨?_, fIdx_bijOn n1 n2 n3, Tflat_double_inverse n1 n2 n3 model 0 h⟩
  unfold placeModelOnMesh
  rw [if_neg (by omega), if_neg (by omega)]
  rfl

/-- The concrete model array `[0, …, 11]` used in the C2 witness. -/
def model12 : List ℚ := [0, 1, 2, 3, 4, 5, 6, 7, 8, 9, 10, 11]

/-- Witness for C2 at `(n1,n2,n3) = (2,2,3)` with model `[0, …, 11]`. -/
theorem placeModelOnMesh_reorder_bijection_witness :
    placeModelOnMesh 2 2 3 model12 0 = .ok (Tflat 2 2 3 model12 0) ∧
    Set.BijOn (fIdx 2 2 3) (Set.Iio (2 * 2 * 3)) (Set.Iio (2 * 2 * 3)) ∧
    Tflat 3 1 (2 * 2) (Tflat 2 2 3 model12 0) 0 = model12 :=
  placeModelOnMesh_reorder_bijection 2 2 3 model12 (by decide)

/-! ## The run-length spacing decoder of `ubcMesh3D` (lines 325–346)

A spacing-line token is either a plain numeric width or a compressed run
`"<count>*<width>"`; the Python code detects the latter by the presence of
a `*` character. -/

/-- One whitespace-separated token of a 3-D mesh spacing line. -/
inductive SpacTok (α : Type) where
  | plain (w : α) : SpacTok α
  | star (num : Nat) (dist : α) : SpacTok α
deriving DecidableEq, Repr

/-- Python `list.insert(n, x)`: positions past the end clamp to an append. -/
def pyInsert {α : Type} (l : List α) (n : Nat) (x : α) : List α :=
  l.take n ++ x :: l.drop n

/-- The first pass of the decoder (lines 330–336): record, for each
compressed token, its index `j` in the ORIGINAL token list together with
the expansion `[dist]*num`. -/
def collectStars {α : Type} (toks : List (SpacTok α)) : List (Nat × List (SpacTok α)) :=
  (List.range toks.length).filterMap (fun j =>
    match (toks[j]? : Option (SpacTok α)) with
    | some (SpacTok.star num dist) => some (j, List.replicate num (SpacTok.plain dist))
    | _ => none)

/-- Python `for k in range(len(ins)): spac_str.insert(idx + k, ins[k])`. -/
def insertRun {α : Type} (l : List α) (idx : Nat) (ins : List α) : List α :=
  match ins with
  | [] => l
  | x :: rest => insertRun (pyInsert l idx x) (idx + 1) rest

/-- The second pass of the decoder (lines 337–341): for each recorded
compressed token, `del spac_str[ins_idx[j]]` then insert the expansion at
the ORIGINAL index — the recorded indices are not shifted by earlier
expansions.  (Python raises IndexError on an out-of-range `del`; the
recorded indices stay in range for the inputs considered here, where
`eraseIdx` agrees with `del`.) -/
def applyStarSubst {α : Type} (l : List (SpacTok α)) :
    List (Nat × List (SpacTok α)) → List (SpacTok α)
  | [] => l
  | (idx, ins) :: rest => applyStarSubst (insertRun (l.eraseIdx idx) idx ins) rest

/-- The full expansion loop of `ubcMesh3D` on one spacing line. -/
def expandTokens {α : Type} (toks : List (SpacTok α)) : List (SpacTok α) :=
  applyStarSubst toks (collectStars toks)

/-- NumPy `np.array(spac_str, dtype=float)`: succeeds with the numeric values if
every remaining token is plain, and raises (ValueError) if any compressed
token survived the expansion loop. -/
def numpyFloatArray {α : Type} : List (SpacTok α) → Option (List α)
  | [] => some []
  | .plain w :: rest => (numpyFloatArray rest).map (fun l => w :: l)
  | .star _ _ :: _ => none

/-- Lines 325–346 of `ubcMesh3D` for axis `i`: expand the spacing tokens,
convert to floats, and check the count against `dim[i] - 1 = n`, the
declared cell count of axis `i`. -/
def decodeSpacingLine {α : Type} (toks : List (SpacTok α)) (n i : Nat) :
    Except UbcErr (List α) :=
  match numpyFloatArray (expandTokens toks) with
  | none => .error .valueError
  | some spac => if spac.length ≠ n then .error (.dimSpacings i) else .ok spac

/-- The decoder as the specification words it: every compressed token is
replaced, at its original position, by `count` repeated copies of `width`,
preserving the left-to-right token order.  (`Modelled from the spec` for
comparison with the `expandTokens` of the code.) -/
def runLengthExpandSpec {α : Type} (toks : List (SpacTok α)) : List α :=
  (toks.map (fun t =>
    match t with
    | .plain w => [w]
    | .star num dist => List.replicate num dist)).flatten

/-- Claim C3. The run-length decoder mishandles lines with two or more compressed
tokens: on the spacing line `"3*2.0 4.0 2*5.0"` the claim (and the format)
requires the in-place expansion `[2, 2, 2, 4, 5, 5]`, but the code deletes
and inserts at the ORIGINAL token indices after earlier expansions have
shifted the list, garbling the order and leaving the last compressed token
unexpanded, so the float conversion fails (ValueError) instead of
producing the expansion.
-/
theorem expandTokens_multi_star_garbled :
    runLengthExpandSpec ([.star 3 2, .plain 4, .star 2 5] : List (SpacTok ℚ)) =
      [2, 2, 2, 4, 5, 5] ∧
    expandTokens ([.star 3 2, .plain 4, .star 2 5] : List (SpacTok ℚ)) =
      [.plain 2, .plain 2, .plain 5, .plain 5, .plain 4, .star 2 5] ∧
    numpyFloatArray (expandTokens ([.star 3 2, .plain 4, .star 2 5] : List (SpacTok ℚ))) =
      none ∧
    decodeSpacingLine ([.star 3 2, .plain 4, .star 2 5] : List (SpacTok ℚ)) 6 0 =
      .error .valueError := by
  refine ⟨by decide, by decide, by decide, rfl⟩

/-- Claim C5. For a spacing line whose expansion converts to floats `ws`, axis `i`
of `ubcMesh3D` fails with the error naming axis `i` if and only if
`ws.length` differs from the declared cell count `n`; when they are equal
the axis is decoded without error.
-/
theorem decodeSpacingLine_axis_check (toks : List (SpacTok ℚ)) (n i : Nat)
    (ws : List ℚ) (h : numpyFloatArray (expandTokens toks) = some ws) :
    (decodeSpacingLine toks n i = .error (.dimSpacings i) ↔ ws.length ≠ n) ∧
    (ws.length = n → decodeSpacingLine toks n i = .ok ws) := by
  have hred : decodeSpacingLine toks n i =
      if ws.length ≠ n then .error (.dimSpacings i) else .ok ws := by
    unfold decodeSpacingLine
    rw [h]
  rw [hred]
  by_cases hlen : ws.length = n
  · rw [if_neg (fun hc => hc hlen)]
    exact ⟨⟨fun he => absurd he (by simp), fun hc => absurd hlen hc⟩, fun _ => rfl⟩
  · rw [if_pos hlen]
    exact ⟨⟨fun _ => hlen, fun _ => rfl⟩, fun he => absurd he hlen⟩

/-- Witness for C5: the single-token run `"3*2.0 4.0"` decodes to four
widths and passes the check for a 4-cell axis. -/
theorem decodeSpacingLine_axis_check_witness :
    decodeSpacingLine ([.star 3 2, .plain 4] : List (SpacTok ℚ)) 4 0 =
      .ok [2, 2, 2, 4] :=
  (decodeSpacingLine_axis_check [.star 3 2, .plain 4] 4 0 [2, 2, 2, 4]
    (by decide)).2 (by decide)

/-! ## Coordinate construction of `ubcMesh3D` (lines 304–367) -/

/-- The coordinate accumulation loop (lines 348–357): `s[0] = origin_i` and
`s[j] = s[j-1] + spac[j-1]`.  The `i == 2` (elevation) branch of the source
performs the same addition as the other two axes — no sign flip. -/
def buildAxis (o : ℚ) (spac : List ℚ) : List ℚ :=
  List.scanl (· + ·) o spac

/-- The output of `ubcMesh3D`: the dimension triple passed to
`SetDimensions` and the three coordinate arrays. -/
structure Mesh3D where
  dims : Nat × Nat × Nat
  xcoords : List ℚ
  ycoords : List ℚ
  zcoords : List ℚ
deriving DecidableEq, Repr

/-- Source `ubcMesh3D`, with the parsed file contents as arguments: declared cell
counts `(n1, n2, n3)` (line 1; the code stores `dim = declared + 1`),
origin `(o1, o2, o3)` (line 2), and the three tokenized spacing lines.
Each axis is decoded against `dim[i] - 1 = declared count`, then
accumulated from the origin. -/
def ubcMesh3D (n1 n2 n3 : Nat) (o1 o2 o3 : ℚ)
    (l1 l2 l3 : List (SpacTok ℚ)) : Except UbcErr Mesh3D :=
  match decodeSpacingLine l1 n1 0 with
  | .error e => .error e
  | .ok s1 =>
    match decodeSpacingLine l2 n2 1 with
    | .error e => .error e
    | .ok s2 =>
      match decodeSpacingLine l3 n3 2 with
      | .error e => .error e
      | .ok s3 =>
        .ok { dims := (n1 + 1, n2 + 1, n3 + 1)
              xcoords := buildAxis o1 s1
              ycoords := buildAxis o2 s2
              zcoords := buildAxis o3 s3 }

theorem buildAxis_length (o : ℚ) (spac : List ℚ) :
    (buildAxis o spac).length = spac.length + 1 :=
  List.length_scanl o spac

theorem buildAxis_head (o : ℚ) (spac : List ℚ) :
    (buildAxis o spac).getD 0 0 = o := by
  cases spac <;> rfl

theorem buildAxis_step (o : ℚ) (spac : List ℚ) :
    ∀ j, j < spac.length →
      (buildAxis o spac).getD (j + 1) 0 =
        (buildAxis o spac).getD j 0 + spac.getD j 0 := by
  induction spac generalizing o with
  | nil => intro j hj; simp at hj
  | cons a t ih =>
    intro j hj
    cases j with
    | zero =>
      simp only [buildAxis, List.scanl_cons, List.singleton_append,
        List.getD_cons_succ, List.getD_cons_zero]
      exact buildAxis_head (o + a) t
    | succ j =>
      have hj' : j < t.length := by simpa using hj
      simp only [buildAxis, List.scanl_cons, List.singleton_append,
        List.getD_cons_succ]
      exact ih (o + a) j hj'

theorem decodeSpacingLine_ok_length {toks : List (SpacTok ℚ)} {n i : Nat}
    {s : List ℚ} (h : decodeSpacingLine toks n i = .ok s) : s.length = n := by
  unfold decodeSpacingLine at h
  cases hf : numpyFloatArray (expandTokens toks) with
  | none => simp only [hf] at h; exact absurd h (by simp)
  | some ws =>
    simp only [hf] at h
    split at h
    · exact absurd h (by simp)
    · next hcond =>
      cases h
      omega


/-- Claim C6. For every 3-D mesh input that parses successfully, each axis `i`
is a coordinate sequence of exactly `n_i + 1` elements, starting at
`origin[i]`, with each subsequent element equal to the previous plus the
corresponding expanded spacing value (the elevation axis uses the same
additive rule — no sign flip), and the allocated dims are
`(n1+1, n2+1, n3+1)`; in particular, header `2 2 1`, origin `0 0 0`,
spacings `1.0 1.0` / `1.0 1.0` / `1.0` yield axes `[0,1,2]`, `[0,1,2]`,
`[0,1]` and dims `(3, 3, 2)`.
-/
theorem ubcMesh3D_axes :
    (∀ (n1 n2 n3 : Nat) (o1 o2 o3 : ℚ) (l1 l2 l3 : List (SpacTok ℚ)) (M : Mesh3D),
      ubcMesh3D n1 n2 n3 o1 o2 o3 l1 l2 l3 = .ok M →
      M.dims = (n1 + 1, n2 + 1, n3 + 1) ∧
      ∃ s1 s2 s3 : List ℚ,
        decodeSpacingLine l1 n1 0 = .ok s1 ∧
        decodeSpacingLine l2 n2 1 = .ok s2 ∧
        decodeSpacingLine l3 n3 2 = .ok s3 ∧
        M.xcoords.length = n1 + 1 ∧ M.xcoords.getD 0 0 = o1 ∧
        (∀ j, j < n1 →
          M.xcoords.getD (j + 1) 0 = M.xcoords.getD j 0 + s1.getD j 0) ∧
        M.ycoords.length = n2 + 1 ∧ M.ycoords.getD 0 0 = o2 ∧
        (∀ j, j < n2 →
          M.ycoords.getD (j + 1) 0 = M.ycoords.getD j 0 + s2.getD j 0) ∧
        M.zcoords.length = n3 + 1 ∧ M.zcoords.getD 0 0 = o3 ∧
        (∀ j, j < n3 →
          M.zcoords.getD (j + 1) 0 = M.zcoords.getD j 0 + s3.getD j 0)) ∧
    ubcMesh3D 2 2 1 0 0 0 [.plain 1, .plain 1] [.plain 1, .plain 1] [.plain 1] =
      .ok { dims := (3, 3, 2), xcoords := [0, 1, 2], ycoords := [0, 1, 2],
            zcoords := [0, 1] } := by
  constructor
  · intro n1 n2 n3 o1 o2 o3 l1 l2 l3 M hM
    unfold ubcMesh3D at hM
    cases hd1 : decodeSpacingLine l1 n1 0 with
    | error e => simp only [hd1] at hM; exact absurd hM (by simp)
    | ok s1 =>
      simp only [hd1] at hM
      cases hd2 : decodeSpacingLine l2 n2 1 with
      | error e => simp only [hd2] at hM; exact absurd hM (by simp)
      | ok s2 =>
        simp only [hd2] at hM
        cases hd3 : decodeSpacingLine l3 n3 2 with
        | error e => simp only [hd3] at hM; exact absurd hM (by simp)
        | ok s3 =>
          simp only [hd3] at hM
          injection hM with hM'
          subst hM'
          have e1 := decodeSpacingLine_ok_length hd1
          have e2 := decodeSpacingLine_ok_length hd2
          have e3 := decodeSpacingLine_ok_length hd3
          refine ⟨rfl, s1, s2, s3, rfl, rfl, rfl, ?_, buildAxis_head o1 s1, ?_,
            ?_, buildAxis_head o2 s2, ?_, ?_, buildAxis_head o3 s3, ?_⟩
          · show (buildAxis o1 s1).length = n1 + 1
            rw [buildAxis_length, e1]
          · intro j hj
            show (buildAxis o1 s1).getD (j + 1) 0 =
              (buildAxis o1 s1).getD j 0 + s1.getD j 0
            exact buildAxis_step o1 s1 j (by omega)
          · show (buildAxis o2 s2).length = n2 + 1
            rw [buildAxis_length, e2]
          · intro j hj
            show (buildAxis o2 s2).getD (j + 1) 0 =
              (buildAxis o2 s2).getD j 0 + s2.getD j 0
            exact buildAxis_step o2 s2 j (by omega)
          · show (buildAxis o3 s3).length = n3 + 1
            rw [buildAxis_length, e3]
          · intro j hj
            show (buildAxis o3 s3).getD (j + 1) 0 =
              (buildAxis o3 s3).getD j 0 + s3.getD j 0
            exact buildAxis_step o3 s3 j (by omega)
  · have h1 : decodeSpacingLine ([.plain 1, .plain 1] : List (SpacTok ℚ)) 2 0 =
        .ok [1, 1] := rfl
    have h2 : decodeSpacingLine ([.plain 1, .plain 1] : List (SpacTok ℚ)) 2 1 =
        .ok [1, 1] := rfl
    have h3 : decodeSpacingLine ([.plain 1] : List (SpacTok ℚ)) 1 2 =
        .ok [1] := rfl
    unfold ubcMesh3D
    rw [h1, h2, h3]
    norm_num [buildAxis, List.scanl_cons, List.scanl_nil]

/-- Witness for C6: the theorem applied to the concrete scenario-A mesh. -/
theorem ubcMesh3D_axes_witness :
    ∃ M : Mesh3D,
      ubcMesh3D 2 2 1 0 0 0 [.plain 1, .plain 1] [.plain 1, .plain 1] [.plain 1] =
        .ok M ∧ M.dims = (2 + 1, 2 + 1, 1 + 1) ∧ M.xcoords.length = 2 + 1 := by
  refine ⟨_, ubcMesh3D_axes.2, (ubcMesh3D_axes.1 2 2 1 0 0 0 [.plain 1, .plain 1]
    [.plain 1, .plain 1] [.plain 1] _ ubcMesh3D_axes.2).1, ?_⟩
  obtain ⟨-, s1, s2, s3, -, -, -, hlen, -⟩ :=
    ubcMesh3D_axes.1 2 2 1 0 0 0 [.plain 1, .plain 1] [.plain 1, .plain 1]
      [.plain 1] _ ubcMesh3D_axes.2
  exact hlen

/-! ## `ubcMesh2D` (lines 167–219) and the extent readers -/

/-- The inner coordinate generator `_genCoords` of `ubcMesh2D`
(lines 196–208): start from `[pts[0]]`; for each consecutive control-point
pair `(start, stop) = (pts[i], pts[i+1])` with subdivision count
`num = disc[i]` and step `w = (stop-start)/num`, append
`start + j*w` for `j = 1..num-1` and then append `stop` itself. -/
def _genCoords (pts : List ℚ) (disc : List Nat) : List ℚ :=
  (List.range (pts.length - 1)).foldl
    (fun c i =>
      c ++ (((List.range' 1 (disc.getD i 0 - 1)).map
          (fun (j : Nat) => pts.getD i 0 + (j : ℚ) *
            ((pts.getD (i + 1) 0 - pts.getD i 0) / (disc.getD i 0 : ℚ)))) ++
        [pts.getD (i + 1) 0]))
    [pts.getD 0 0]

/-- The coordinate sequence as the specification words it: the origin
control point followed by, for each segment in order, the `num - 1`
interior points and the declared control point `stop` itself exactly. -/
def genCoordsSpec (pts : List ℚ) (disc : List Nat) : List ℚ :=
  pts.getD 0 0 ::
    ((List.range (pts.length - 1)).map (fun i =>
      ((List.range' 1 (disc.getD i 0 - 1)).map
          (fun (j : Nat) => pts.getD i 0 + (j : ℚ) *
            ((pts.getD (i + 1) 0 - pts.getD i 0) / (disc.getD i 0 : ℚ)))) ++
        [pts.getD (i + 1) 0])).flatten

/-- The output of `ubcMesh2D`: dims passed to `SetDimensions` and the three
coordinate arrays. -/
structure Mesh2D where
  dims : Nat × Nat × Nat
  xcoords : List ℚ
  ycoords : List ℚ
  zcoords : List ℚ
deriving DecidableEq, Repr

/-- Source `ubcMesh2D`, with the parsed file contents (`_ubcMesh2D_part` output)
as arguments: control points and subdivision counts per axis.
`nx = sum(xdisc) + 1`, `nz = sum(zdisc) + 1`, `SetDimensions(nx, 2, nz)`,
and the Y coordinates are `np.zeros(1) = [0]`. -/
def ubcMesh2D (xpts zpts : List ℚ) (xdisc zdisc : List Nat) : Mesh2D :=
  { dims := (xdisc.sum + 1, 2, zdisc.sum + 1)
    xcoords := _genCoords xpts xdisc
    ycoords := [0]
    zcoords := _genCoords zpts zdisc }

/-- Source `ubcExtent2D` (lines 143–165): node counts `sum(disc) + 1` per axis and
a constant `1` for the thickness axis. -/
def ubcExtent2D (xdisc zdisc : List Nat) : Nat × Nat × Nat × Nat × Nat × Nat :=
  (0, xdisc.sum + 1, 0, 1, 0, zdisc.sum + 1)

/-- Source `ubcExtent3D` (lines 33–62): the declared cell counts of the header,
unchanged. -/
def ubcExtent3D (n1 n2 n3 : Nat) : Nat × Nat × Nat × Nat × Nat × Nat :=
  (0, n1, 0, n2, 0, n3)

theorem foldl_append_eq {α : Type} (f : Nat → List α) (n : Nat) (init : List α) :
    (List.range n).foldl (fun c i => c ++ f i) init =
      init ++ ((List.range n).map f).flatten := by
  induction n with
  | zero => simp
  | succ n ih =>
    rw [List.range_succ, List.foldl_append, ih, List.map_append,
      List.flatten_append]
    simp [List.append_assoc]

theorem _genCoords_eq_spec (pts : List ℚ) (disc : List Nat) :
    _genCoords pts disc = genCoordsSpec pts disc := by
  unfold _genCoords genCoordsSpec
  rw [foldl_append_eq]
  rfl

/-- Claim C7. `ubcMesh2D` builds each axis by, for every consecutive
control-point pair `(start, stop)` with subdivision count `num`, appending
the `num - 1` interior points `start + j*(stop-start)/num` for
`j = 1..num-1` followed by the declared control point `stop` itself
(appended literally, not accumulated); the Y axis of the grid is the single
constant coordinate `[0]`.
-/
theorem ubcMesh2D_coords (xpts zpts : List ℚ) (xdisc zdisc : List Nat) :
    (ubcMesh2D xpts zpts xdisc zdisc).xcoords = genCoordsSpec xpts xdisc ∧
    (ubcMesh2D xpts zpts xdisc zdisc).zcoords = genCoordsSpec zpts zdisc ∧
    (ubcMesh2D xpts zpts xdisc zdisc).ycoords = [0] :=
  ⟨_genCoords_eq_spec xpts xdisc, _genCoords_eq_spec zpts zdisc, rfl⟩

theorem map_getD_range (l : List Nat) :
    (List.range l.length).map (fun i => l.getD i 0) = l := by
  apply List.ext_getElem (by simp)
  intro i h1 h2
  rw [List.getElem_map, List.getElem_range, List.getD_eq_getElem _ _ h2]

/-- With one subdivision count per segment and positive counts, the 2-D
coordinate generator produces `sum(disc) + 1` nodes. -/
theorem _genCoords_length (pts : List ℚ) (disc : List Nat)
    (hlen : pts.length = disc.length + 1) (hpos : ∀ d ∈ disc, 0 < d) :
    (_genCoords pts disc).length = disc.sum + 1 := by
  rw [_genCoords_eq_spec]
  unfold genCoordsSpec
  rw [List.length_cons, List.length_flatten, List.map_map]
  have hn : pts.length - 1 = disc.length := by omega
  rw [hn]
  have hcong : (List.range disc.length).map
      (List.length ∘ fun i =>
        ((List.range' 1 (disc.getD i 0 - 1)).map
          (fun (j : Nat) => pts.getD i 0 + (j : ℚ) *
            ((pts.getD (i + 1) 0 - pts.getD i 0) / (disc.getD i 0 : ℚ)))) ++
        [pts.getD (i + 1) 0]) =
      (List.range disc.length).map (fun i => disc.getD i 0) := by
    apply List.map_congr_left
    intro i hi
    have hmem : disc.getD i 0 ∈ disc := by
      rw [List.getD_eq_getElem _ _ (by simpa using hi)]
      exact List.getElem_mem _
    have hdpos : 0 < disc.getD i 0 := hpos _ hmem
    show (((List.range' 1 (disc.getD i 0 - 1)).map
        (fun (j : Nat) => pts.getD i 0 + (j : ℚ) *
          ((pts.getD (i + 1) 0 - pts.getD i 0) / (disc.getD i 0 : ℚ)))) ++
      [pts.getD (i + 1) 0]).length = disc.getD i 0
    rw [List.length_append, List.length_map, List.length_range']
    simp only [List.length_cons, List.length_nil]
    omega
  rw [hcong, map_getD_range]

/-- Axis lengths of a successfully parsed 3-D mesh: `n_i + 1` nodes. -/
theorem ubcMesh3D_ok_lengths {n1 n2 n3 : Nat} {o1 o2 o3 : ℚ}
    {l1 l2 l3 : List (SpacTok ℚ)} {M : Mesh3D}
    (hM : ubcMesh3D n1 n2 n3 o1 o2 o3 l1 l2 l3 = .ok M) :
    M.xcoords.length = n1 + 1 ∧ M.ycoords.length = n2 + 1 ∧
      M.zcoords.length = n3 + 1 := by
  unfold ubcMesh3D at hM
  cases hd1 : decodeSpacingLine l1 n1 0 with
  | error e => simp only [hd1] at hM; exact absurd hM (by simp)
  | ok s1 =>
    simp only [hd1] at hM
    cases hd2 : decodeSpacingLine l2 n2 1 with
    | error e => simp only [hd2] at hM; exact absurd hM (by simp)
    | ok s2 =>
      simp only [hd2] at hM
      cases hd3 : decodeSpacingLine l3 n3 2 with
      | error e => simp only [hd3] at hM; exact absurd hM (by simp)
      | ok s3 =>
        simp only [hd3] at hM
        injection hM with hM'
        subst hM'
        refine ⟨?_, ?_, ?_⟩
        · show (buildAxis o1 s1).length = n1 + 1
          rw [buildAxis_length, decodeSpacingLine_ok_length hd1]
        · show (buildAxis o2 s2).length = n2 + 1
          rw [buildAxis_length, decodeSpacingLine_ok_length hd2]
        · show (buildAxis o3 s3).length = n3 + 1
          rw [buildAxis_length, decodeSpacingLine_ok_length hd3]

/-- Claim C10. `ubcExtent2D` returns `(0, nx, 0, 1, 0, nz)` where `nx` and `nz`
are the per-axis NODE counts (`sum of subdivision counts + 1`, exactly the
length of the coordinate array `ubcMesh2D` builds for that axis, plus a
constant `1` for the thickness axis), whereas `ubcExtent3D` returns the
declared CELL counts — one less than the node count of each axis that
`ubcMesh3D` builds.
-/
theorem ubcExtent_semantics :
    (∀ (xpts zpts : List ℚ) (xdisc zdisc : List Nat),
      xpts.length = xdisc.length + 1 → zpts.length = zdisc.length + 1 →
      (∀ d ∈ xdisc, 0 < d) → (∀ d ∈ zdisc, 0 < d) →
      ubcExtent2D xdisc zdisc =
        (0, (ubcMesh2D xpts zpts xdisc zdisc).xcoords.length, 0, 1, 0,
          (ubcMesh2D xpts zpts xdisc zdisc).zcoords.length)) ∧
    (∀ (n1 n2 n3 : Nat) (o1 o2 o3 : ℚ) (l1 l2 l3 : List (SpacTok ℚ)) (M : Mesh3D),
      ubcMesh3D n1 n2 n3 o1 o2 o3 l1 l2 l3 = .ok M →
      ubcExtent3D n1 n2 n3 =
        (0, M.xcoords.length - 1, 0, M.ycoords.length - 1, 0,
          M.zcoords.length - 1)) := by
  constructor
  · intro xpts zpts xdisc zdisc h1 h2 hp1 hp2
    show (0, xdisc.sum + 1, 0, 1, 0, zdisc.sum + 1) =
      (0, (_genCoords xpts xdisc).length, 0, 1, 0, (_genCoords zpts zdisc).length)
    rw [_genCoords_length xpts xdisc h1 hp1, _genCoords_length zpts zdisc h2 hp2]
  · intro n1 n2 n3 o1 o2 o3 l1 l2 l3 M hM
    obtain ⟨hx, hy, hz⟩ := ubcMesh3D_ok_lengths hM
    rw [hx, hy, hz]
    show (0, n1, 0, n2, 0, n3) = (0, n1 + 1 - 1, 0, n2 + 1 - 1, 0, n3 + 1 - 1)
    simp

/-- Witness for C10 at a one-segment 2-D mesh and a unit 3-D mesh. -/
theorem ubcExtent_semantics_witness :
    ubcExtent2D [2] [1] =
      (0, (ubcMesh2D [0, 2] [0, 1] [2] [1]).xcoords.length, 0, 1, 0,
        (ubcMesh2D [0, 2] [0, 1] [2] [1]).zcoords.length) ∧
    ubcExtent3D 1 1 1 =
      (0, (buildAxis (0 : ℚ) [1]).length - 1, 0, (buildAxis (0 : ℚ) [1]).length - 1,
        0, (buildAxis (0 : ℚ) [1]).length - 1) :=
  ⟨ubcExtent_semantics.1 [0, 2] [0, 1] [2] [1] (by decide) (by decide)
      (by decide) (by decide),
   ubcExtent_semantics.2 1 1 1 0 0 0 [.plain 1] [.plain 1] [.plain 1]
     { dims := (2, 2, 2), xcoords := buildAxis 0 [1], ycoords := buildAxis 0 [1],
       zcoords := buildAxis 0 [1] } rfl⟩

/-! ## `ubcModel2D` (lines 221–241) -/

/-- NumPy `data.flatten` in F order for a 2-D table of shape `(r, c)`: the output
walks column by column — output element `j*r + i` is `data[i][j]` (the row
index varies fastest). -/
def flattenColMajor (t : List (List ℚ)) : List ℚ :=
  ((List.range (t.headD []).length).map
    (fun j => t.map (fun row => row.getD j 0))).flatten

/-- Source `ubcModel2D` with the parsed file contents as arguments: the header
pair `(h1, h2)` from line 1 (`dim`, NumPy ints) and the value table from
the remaining lines, of shape
`(r, c) = (table.length, (table.headD []).length)` (`np.genfromtxt`
guarantees a rectangular table).  Mirrors the source check
`if np.shape(data)[0] != dim[1] and np.shape(data)[1] != dim[0]: raise`,
then `data.flatten` in F order. -/
def ubcModel2D (h1 h2 : Int) (table : List (List ℚ)) : Except UbcErr (List ℚ) :=
  if (table.length : Int) ≠ h2 ∧ ((table.headD []).length : Int) ≠ h1 then
    .error .badModelFormat
  else
    .ok (flattenColMajor table)

theorem flatten_chunks_getD {α : Type} (d : α) (r : Nat) :
    ∀ (L : List (List α)), (∀ l ∈ L, l.length = r) →
      ∀ j i, j < L.length → i < r →
        L.flatten.getD (j * r + i) d = (L.getD j []).getD i d := by
  intro L
  induction L with
  | nil => intro _ j i hj _; simp at hj
  | cons x rest ih =>
    intro hlen j i hj hi
    have hx : x.length = r := hlen x (by simp)
    cases j with
    | zero =>
      have h0 : 0 * r + i = i := by omega
      rw [show (x :: rest).flatten = x ++ rest.flatten from rfl, h0,
        List.getD_append _ _ _ _ (by omega), List.getD_cons_zero]
    | succ j =>
      have hge : x.length ≤ (j + 1) * r + i := by
        have he : (j + 1) * r = j * r + r := by ring
        omega
      have hsub : (j + 1) * r + i - x.length = j * r + i := by
        have he : (j + 1) * r = j * r + r := by ring
        omega
      rw [show (x :: rest).flatten = x ++ rest.flatten from rfl,
        List.getD_append_right _ _ _ _ hge, hsub, List.getD_cons_succ]
      exact ih (fun l hl => hlen l (by simp [hl])) j i (by simpa using hj) hi

theorem sum_map_const_range (n k : Nat) :
    ((List.range n).map (fun _ => k)).sum = n * k := by
  induction n with
  | zero => simp
  | succ n ih =>
    rw [List.range_succ, List.map_append, List.sum_append, ih]
    simp [Nat.succ_mul]

theorem flattenColMajor_length (t : List (List ℚ)) :
    (flattenColMajor t).length = (t.headD []).length * t.length := by
  unfold flattenColMajor
  rw [List.length_flatten, List.map_map]
  have hcong : (List.range (t.headD []).length).map
      (List.length ∘ fun j => t.map (fun row => row.getD j 0)) =
      (List.range (t.headD []).length).map (fun _ => t.length) := by
    apply List.map_congr_left
    intro j _
    show (t.map (fun row => row.getD j 0)).length = t.length
    rw [List.length_map]
  rw [hcong, sum_map_const_range]

/-- Claim C9. `ubcModel2D` raises the "improperly formatted" error iff NEITHER
dimension of the parsed value table matches the corresponding declared
count (the parsed row count is checked against the second header value and
the parsed column count against the first; either one matching passes
validation); on success it returns the table flattened in column-major
(NumPy F) order: output element `j*r + i` is `table[i][j]`.
-/
theorem ubcModel2D_validation (h1 h2 : Int) (table : List (List ℚ)) :
    ((∃ e, ubcModel2D h1 h2 table = .error e) ↔
      ((table.length : Int) ≠ h2 ∧ ((table.headD []).length : Int) ≠ h1)) ∧
    (((table.length : Int) = h2 ∨ ((table.headD []).length : Int) = h1) →
      ubcModel2D h1 h2 table = .ok (flattenColMajor table) ∧
      (flattenColMajor table).length = (table.headD []).length * table.length ∧
      ((∀ row ∈ table, row.length = (table.headD []).length) →
        ∀ i j, i < table.length → j < (table.headD []).length →
          (flattenColMajor table).getD (j * table.length + i) 0 =
            (table.getD i []).getD j 0)) := by
  constructor
  · constructor
    · rintro ⟨e, he⟩
      by_contra hc
      unfold ubcModel2D at he
      rw [if_neg hc] at he
      exact absurd he (by simp)
    · intro hcond
      exact ⟨.badModelFormat, by unfold ubcModel2D; rw [if_pos hcond]⟩
  · intro hpass
    have hnot : ¬((table.length : Int) ≠ h2 ∧ ((table.headD []).length : Int) ≠ h1) := by
      rcases hpass with h | h
      · exact fun hc => hc.1 h
      · exact fun hc => hc.2 h
    refine ⟨by unfold ubcModel2D; rw [if_neg hnot], flattenColMajor_length table, ?_⟩
    intro hrect i j hi hj
    unfold flattenColMajor
    have hlens : ∀ l ∈ (List.range (table.headD []).length).map
        (fun j => table.map (fun row => row.getD j 0)), l.length = table.length := by
      intro l hl
      obtain ⟨q, _, rfl⟩ := List.mem_map.mp hl
      rw [List.length_map]
    rw [flatten_chunks_getD 0 table.length _ hlens j i (by simpa using hj) hi]
    have hjlen : j < ((List.range (table.headD []).length).map
        (fun j => table.map (fun row => row.getD j 0))).length := by simpa using hj
    have hcol : ((List.range (table.headD []).length).map
        (fun j => table.map (fun row => row.getD j 0))).getD j [] =
        table.map (fun row => row.getD j 0) := by
      rw [List.getD_eq_getElem _ _ hjlen, List.getElem_map, List.getElem_range]
    rw [hcol]
    have hilen : i < (table.map (fun row => row.getD j 0)).length := by
      rw [List.length_map]; exact hi
    rw [List.getD_eq_getElem _ _ hilen, List.getElem_map]
    show (table[i]).getD j 0 = (table.getD i []).getD j 0
    rw [List.getD_eq_getElem _ _ hi]

/-- Witness for C9: header `(3, 2)` with a 2 × 3 table passes validation
(both dimensions match) and flattens column-major; header `(5, 9)` with
the same table errors. -/
theorem ubcModel2D_validation_witness :
    ubcModel2D 3 2 [[1, 2, 3], [4, 5, 6]] =
      .ok (flattenColMajor [[1, 2, 3], [4, 5, 6]]) ∧
    (∃ e, ubcModel2D 5 9 [[1, 2, 3], [4, 5, 6]] = .error e) ∧
    flattenColMajor [[1, 2, 3], [4, 5, 6]] = [1, 4, 2, 5, 3, 6] :=
  ⟨((ubcModel2D_validation 3 2 [[1, 2, 3], [4, 5, 6]]).2 (by decide)).1,
   (ubcModel2D_validation 5 9 [[1, 2, 3], [4, 5, 6]]).1.mpr (by decide),
   by decide⟩

/-! ## `ubcOcTree` (lines 427–498) -/

/-- NumPy `np.genfromtxt` over the trailing per-cell index-table rows: succeeds
with the table iff the rows are rectangular (NumPy raises on ragged rows). -/
def parseIndexTable (rows : List (List Int)) : Option (List (List Int)) :=
  if rows.all (fun r => r.length = (rows.headD []).length) then some rows else none

/-- Source `ubcOcTree` with the parsed file contents as arguments: the integers of
the header line (`dim`; the first three are the core cell counts, the rest
padding) and the trailing index-table rows.  The origin / core-width /
cell-count lines (file lines 2–4) are read between the two and do not
affect this validation order.  Mirrors the source: slice `dim[0:3]`, raise
if `np.unique(dim).size > 1` (i.e. the three core counts are not all
equal), and only afterwards read the index table. -/
def ubcOcTree (dimLine : List Int) (rows : List (List Int)) :
    Except UbcErr (List (List Int)) :=
  if ¬(dimLine.getD 0 0 = dimLine.getD 1 0 ∧ dimLine.getD 1 0 = dimLine.getD 2 0) then
    .error .unsupportedGeometry
  else
    match parseIndexTable rows with
    | none => .error .valueError
    | some t => .ok t

/-- Claim C8. `ubcOcTree` raises the "OcTree meshes must have the same number of
cells in all directions" error exactly when the three core dimensions of
the header are not all equal, and it does so before any parsing of the
trailing per-cell index table is attempted: the error fires for every
`rows` argument, including tables the row parser would reject.  When the
three core dimensions are equal, that error is never raised.
-/
theorem ubcOcTree_core_dims (d1 d2 d3 : Int) (pad : List Int)
    (rows : List (List Int)) :
    (¬(d1 = d2 ∧ d2 = d3) →
      ubcOcTree ([d1, d2, d3] ++ pad) rows = .error .unsupportedGeometry) ∧
    ((d1 = d2 ∧ d2 = d3) →
      ubcOcTree ([d1, d2, d3] ++ pad) rows ≠ .error .unsupportedGeometry) := by
  have hg0 : ([d1, d2, d3] ++ pad).getD 0 0 = d1 := rfl
  have hg1 : ([d1, d2, d3] ++ pad).getD 1 0 = d2 := rfl
  have hg2 : ([d1, d2, d3] ++ pad).getD 2 0 = d3 := rfl
  constructor
  · intro hne
    unfold ubcOcTree
    rw [hg0, hg1, hg2, if_pos hne]
  · intro heq
    unfold ubcOcTree
    rw [hg0, hg1, hg2, if_neg (not_not_intro heq)]
    cases hp : parseIndexTable rows with
    | none => simp
    | some t => simp

/-- Witness for C8: header `"4 4 5"` errors even with a ragged index table
(which the row parser would reject), and header `"4 4 4"` does not raise
the unequal-dimensions error on the same table. -/
theorem ubcOcTree_core_dims_witness :
    ubcOcTree [4, 4, 5] [[1], [2, 3]] = .error .unsupportedGeometry ∧
    ubcOcTree [4, 4, 4] [[1], [2, 3]] ≠ .error .unsupportedGeometry :=
  ⟨(ubcOcTree_core_dims 4 4 5 [] [[1], [2, 3]]).1 (by decide),
   (ubcOcTree_core_dims 4 4 4 [] [[1], [2, 3]]).2 (by decide)⟩
